import Mathlib

/-!
# Verification of the CEDARScript structural edit engine

Shallow embedding of the structural query/edit engine
(`src/commands/index.ts`) and of the line rule engine
(the CASE/WHEN/THEN interpreter in the MCP server entry point),
with theorems about target resolution, condition filtering,
multi-match edit application, and the line engine's loop.

Content buffers are modelled as `List Char` (one element per
UTF-16 code unit position of the JavaScript string); node types,
node texts and command strings stay `String`.  Regular-expression
testing and substitution are external capabilities of the JavaScript
runtime and are passed in as oracle functions where the source calls
them; none of the verified properties depend on their behaviour.
-/

namespace CedarMCP


/-- A span in the content buffer, as pushed by the `findNodes...`
walkers: `{startIndex: node.startIndex, endIndex: node.endIndex}`. -/
structure Span where
  startIndex : Nat
  endIndex : Nat
  deriving DecidableEq, Repr

/-- Syntax tree node (the data model of tree-sitter's `SyntaxNode` as the
engine consumes it): a type tag, a span of the underlying content, the
node's text, and ordered children. -/
inductive SNode where
  | mk (ty : String) (startIndex : Nat) (endIndex : Nat) (text : String)
       (children : List SNode)

/-- `node.type`. -/
def SNode.ty : SNode → String
  | .mk t _ _ _ _ => t

/-- `node.startIndex`. -/
def SNode.startIndex : SNode → Nat
  | .mk _ s _ _ _ => s

/-- `node.endIndex`. -/
def SNode.endIndex : SNode → Nat
  | .mk _ _ e _ _ => e

/-- `node.text`. -/
def SNode.text : SNode → String
  | .mk _ _ _ tx _ => tx

/-- `node.children` (the `child(i)` loop order). -/
def SNode.children : SNode → List SNode
  | .mk _ _ _ _ cs => cs

/-- The target specifier, per the `switch (targetNode.type)` in
`findTargets`: an `identifier` node (match by node type), a `string`
node (match by exact text, quotes stripped), or a `regex_pattern` node. -/
inductive TargetSpec where
  | typeName (name : String)
  | literal (raw : String)
  | regex (pattern : String)

/-- A parsed condition, the `[field, operator, value]` triple that
`parseCondition` extracts from the condition node. -/
structure Cond where
  field : String
  op : String
  value : String

/-- Is a character one of the quote delimiters stripped by
`extractContent` / the `string` target case? -/
def isQuoteChar (c : Char) : Bool :=
  "'\"`".toList.contains c

/-- `text.replace(/^['"`]|['"`]$/g, '')`: drop one leading and one
trailing quote character when present. -/
def stripQuotes (s : String) : String :=
  let l := s.toList
  let l1 := match l with
    | c :: rest => if isQuoteChar c then rest else l
    | [] => []
  let l2 := match l1.getLast? with
    | some c => if isQuoteChar c then l1.dropLast else l1
    | none => l1
  String.mk l2

mutual

/-- `findNodesWithType`: pre-order walk pushing the span of every node
whose type tag equals the query (self first, then children in order). -/
def findNodesWithType : SNode → String → List Span
  | .mk ty s e _ cs, q =>
    (if ty = q then [⟨s, e⟩] else []) ++ findNodesWithTypeList cs q

def findNodesWithTypeList : List SNode → String → List Span
  | [], _ => []
  | c :: cs, q => findNodesWithType c q ++ findNodesWithTypeList cs q

end

mutual

/-- `findNodesWithText`: pre-order walk pushing the span of every node
whose full text equals the query exactly. -/
def findNodesWithText : SNode → String → List Span
  | .mk _ s e tx cs, q =>
    (if tx = q then [⟨s, e⟩] else []) ++ findNodesWithTextList cs q

def findNodesWithTextList : List SNode → String → List Span
  | [], _ => []
  | c :: cs, q => findNodesWithText c q ++ findNodesWithTextList cs q

end

mutual

/-- `findNodesMatchingRegex`: pre-order walk pushing the span of every
node whose text satisfies `pattern.test` (the runtime's regex test,
supplied as the oracle `rtest pattern text`). -/
def findNodesMatchingRegex (rtest : String → String → Bool) :
    SNode → String → List Span
  | .mk _ s e tx cs, p =>
    (if rtest p tx then [⟨s, e⟩] else []) ++ findNodesMatchingRegexList rtest cs p

def findNodesMatchingRegexList (rtest : String → String → Bool) :
    List SNode → String → List Span
  | [], _ => []
  | c :: cs, p =>
    findNodesMatchingRegex rtest c p ++ findNodesMatchingRegexList rtest cs p

end

mutual

/-- `findNodeAtPosition`: return the node whose span equals
`(startIndex, endIndex)` exactly, descending only into children whose
span encloses the query; first hit wins, `none` when no node matches. -/
def findNodeAtPosition : SNode → Nat → Nat → Option SNode
  | n@(.mk _ s0 e0 _ cs), s, e =>
    if s0 = s && e0 = e then some n
    else findNodeAtPositionList cs s e

def findNodeAtPositionList : List SNode → Nat → Nat → Option SNode
  | [], _, _ => none
  | c :: cs, s, e =>
    if c.startIndex ≤ s && e ≤ c.endIndex then
      match findNodeAtPosition c s e with
      | some m => some m
      | none => findNodeAtPositionList cs s e
    else findNodeAtPositionList cs s e

end

/-- The predicate a single target must satisfy to survive
`filterTargetsByCondition`: on field `type` or `text`, re-locate the
node at the match's exact span and compare (`=` is equality, any other
operator is substring containment via `includes`); an unlocatable node
yields `false`; any other field falls to the `default` branch, which
keeps the target. -/
def condKeep (root : SNode) (cond : Cond) (t : Span) : Bool :=
  if cond.field = "type" then
    match findNodeAtPosition root t.startIndex t.endIndex with
    | some n =>
      if cond.op = "=" then n.ty = cond.value
      else decide (cond.value.toList <:+: n.ty.toList)
    | none => false
  else if cond.field = "text" then
    match findNodeAtPosition root t.startIndex t.endIndex with
    | some n =>
      if cond.op = "=" then n.text = cond.value
      else decide (cond.value.toList <:+: n.text.toList)
    | none => false
  else
    true

/-- `filterTargetsByCondition`: `targets.filter(...)` with `condKeep`. -/
def filterTargetsByCondition (root : SNode) (cond : Cond)
    (targets : List Span) : List Span :=
  targets.filter (condKeep root cond)

/-- `findTargets`: dispatch on the target specifier variant, then apply
condition filtering when a condition node is present. -/
def findTargets (rtest : String → String → Bool) (root : SNode)
    (tgt : TargetSpec) (cond? : Option Cond) : List Span :=
  let targets := match tgt with
    | .typeName n => findNodesWithType root n
    | .literal raw => findNodesWithText root (stripQuotes raw)
    | .regex p => findNodesMatchingRegex rtest root p
  match cond? with
  | some cond => filterTargetsByCondition root cond targets
  | none => targets

/-- `replaceContent`: `content.substring(0, start) + newContent +
content.substring(end)` (JavaScript `substring` clamps out-of-range
indices, exactly as `List.take` / `List.drop` do). -/
def replaceContent (content : List Char) (s e : Nat) (newContent : List Char) :
    List Char :=
  content.take s ++ newContent ++ content.drop e

/-- `deleteContent`: `content.substring(0, start) + content.substring(end)`. -/
def deleteContent (content : List Char) (s e : Nat) : List Char :=
  content.take s ++ content.drop e

/-- `content.substring(a, b)`: swaps its arguments when `a > b`, clamps
to the content length. -/
def jsSubstring (content : List Char) (a b : Nat) : List Char :=
  if a ≤ b then (content.take b).drop a else (content.take a).drop b

/-- The UPDATE apply loop: `for (const target of targets.reverse())
result = replaceContent(result, ...)`. -/
def updateApply (content : List Char) (targets : List Span)
    (newContent : List Char) : List Char :=
  targets.reverse.foldl
    (fun res t => replaceContent res t.startIndex t.endIndex newContent) content

/-- The DELETE apply loop: `for (const target of targets.reverse())
result = deleteContent(result, ...)`. -/
def deleteApply (content : List Char) (targets : List Span) : List Char :=
  targets.reverse.foldl
    (fun res t => deleteContent res t.startIndex t.endIndex) content

/-- `UpdateCommand.execute`: missing content node throws (modelled as
`none`); no target node means whole-content replacement; otherwise
resolve targets and apply `replaceContent` tail-to-head. -/
def updateExecute (rtest : String → String → Bool) (content : List Char)
    (root : SNode) (tgt? : Option TargetSpec) (cond? : Option Cond)
    (newContent? : Option (List Char)) : Option (List Char) :=
  match newContent? with
  | none => none
  | some newContent =>
    match tgt? with
    | none => some newContent
    | some tgt =>
      some (updateApply content (findTargets rtest root tgt cond?) newContent)

/-- `DeleteCommand.execute`: no target deletes the entire content;
otherwise resolve targets and apply `deleteContent` tail-to-head. -/
def deleteExecute (rtest : String → String → Bool) (content : List Char)
    (root : SNode) (tgt? : Option TargetSpec) (cond? : Option Cond) :
    List Char :=
  match tgt? with
  | none => []
  | some tgt => deleteApply content (findTargets rtest root tgt cond?)

/-- Join a list of extracted snippets with a newline, as
`targets.map(...).join('\n')`. -/
def joinNewline (parts : List (List Char)) : List Char :=
  (parts.intersperse [Char.ofNat 10]).flatten

/-- `SelectCommand.execute`: no target returns the full content;
otherwise resolve targets and join `content.substring(start, end)`
snippets with newlines, leaving content unmodified. -/
def selectExecute (rtest : String → String → Bool) (content : List Char)
    (root : SNode) (tgt? : Option TargetSpec) (cond? : Option Cond) :
    List Char :=
  match tgt? with
  | none => content
  | some tgt =>
    joinNewline ((findTargets rtest root tgt cond?).map
      (fun t => jsSubstring content t.startIndex t.endIndex))

/-- `InsertCommand.execute` after position/content extraction: `start`
prepends, `end` appends, `before`/`after` currently fall through to
`return content` (the source's TODO branch), any other position throws
(modelled as `none`). -/
def insertExecute (content : List Char) (position : String)
    (newContent : List Char) : Option (List Char) :=
  if position = "start" then some (newContent ++ content)
  else if position = "end" then some (content ++ newContent)
  else if position = "before" then some content
  else if position = "after" then some content
  else none

/-- `CaseWhen` of the line rule engine: the optional condition fields
(the `pre`/`suf` fields model the source's leading/trailing literal
match fields).  A missing field is `none`; the source's truthiness test
additionally treats an empty string as absent. -/
structure CaseWhen where
  empty : Bool := false
  regex : Option String := none
  pre : Option String := none
  suf : Option String := none

/-- `CaseAction` of the line rule engine. -/
structure CaseAction where
  remove : Bool := false
  subPattern : Option String := none
  subRepl : Option String := none
  indent : Option Int := none
  content : Option String := none

/-- One WHEN/THEN pair of a CASE statement. -/
structure CaseRule where
  whenC : CaseWhen
  thenA : CaseAction

/-- Truthiness of an optional string field in the source's `if (x && ...)`
guards: present and non-empty. -/
def optTruthy (o : Option String) : Bool :=
  match o with
  | some s => !(s == "")
  | none => false

/-- `line.trim()`: strip whitespace from both ends. -/
def jsTrim (line : String) : String :=
  String.mk
    (((line.toList.dropWhile Char.isWhitespace).reverse.dropWhile
      Char.isWhitespace).reverse)

/-- `line.trimLeft()`: strip leading whitespace. -/
def jsTrimStart (line : String) : String :=
  String.mk (line.toList.dropWhile Char.isWhitespace)

/-- `line.startsWith(p)`. -/
def jsStartsWith (line p : String) : Bool :=
  p.toList.isPrefixOf line.toList

/-- `line.endsWith(s)`. -/
def jsEndsWith (line s : String) : Bool :=
  s.toList.isSuffixOf line.toList

/-- `matchesCondition(line, when)`: the four guarded checks in source
order — empty (trimmed line empty), regex test, leading literal
(`startsWith`), trailing literal (`endsWith`); `false` otherwise. -/
def matchesCondition (rtest : String → String → Bool) (line : String)
    (w : CaseWhen) : Bool :=
  (w.empty && (jsTrim line == "")) ||
  (match w.regex with
   | some r => !(r == "") && rtest r line
   | none => false) ||
  (match w.pre with
   | some p => !(p == "") && jsStartsWith line p
   | none => false) ||
  (match w.suf with
   | some s => !(s == "") && jsEndsWith line s
   | none => false)

/-- Number of leading whitespace characters of a line
(`line.match(/^\s*/)[0].length`). -/
def leadingWsCount (line : String) : Nat :=
  (line.toList.takeWhile Char.isWhitespace).length

/-- `applyAction(line, then)`: remove yields the empty string (the
caller then splices the line away); otherwise first-match regex
substitution (oracle `rsub pattern repl line`), indent recomputation
clamped at zero, or whole-line replacement; unchanged when no action
field is truthy. -/
def applyAction (rsub : String → String → String → String) (line : String)
    (a : CaseAction) : String :=
  if a.remove then ""
  else if optTruthy a.subPattern && optTruthy a.subRepl then
    rsub (a.subPattern.getD "") (a.subRepl.getD "") line
  else if a.indent.isSome then
    let cur : Int := leadingWsCount line
    let newIndent : Nat := (max 0 (cur + a.indent.getD 0)).toNat
    String.mk (List.replicate newIndent ' ') ++ jsTrimStart line
  else if optTruthy a.content then a.content.getD ""
  else line

/-- The loop state of `executeUpdateCommand`: the (shrinking) line
array and the loop index `i`. -/
structure LoopSt where
  lines : List String
  i : Nat
  deriving Repr

/-- One iteration of the `for (let i = 0; i < result.length; i++)` loop:
take the current line, find the first rule whose condition matches
(`break` after it); on a remove action the line is spliced out and `i`
is left in place (`i--` then `i++`), otherwise the line is rewritten in
place and `i` advances; with no matching rule `i` just advances.
`none` signals the loop guard `i < result.length` failed. -/
def engineStep (rtest : String → String → Bool)
    (rsub : String → String → String → String) (rules : List CaseRule)
    (st : LoopSt) : Option LoopSt :=
  match st.lines.get? st.i with
  | none => none
  | some line =>
    match rules.find? (fun c => matchesCondition rtest line c.whenC) with
    | some c =>
      if c.thenA.remove then some ⟨st.lines.eraseIdx st.i, st.i⟩
      else some ⟨st.lines.set st.i (applyAction rsub line c.thenA), st.i + 1⟩
    | none => some ⟨st.lines, st.i + 1⟩

/-- Iterate `engineStep` while the loop guard holds, with explicit
fuel.  `lines.length` fuel is enough: every iteration strictly
decreases `lines.length - i` (proved below). -/
def engineRun (rtest : String → String → Bool)
    (rsub : String → String → String → String) (rules : List CaseRule) :
    Nat → LoopSt → LoopSt
  | 0, st => st
  | n + 1, st =>
    match engineStep rtest rsub rules st with
    | some st' => engineRun rtest rsub rules n st'
    | none => st

/-- `executeUpdateCommand`: run the CASE loop over a copy of the line
array starting at index 0. -/
def executeUpdateCommand (rtest : String → String → Bool)
    (rsub : String → String → String → String) (rules : List CaseRule)
    (lines : List String) : List String :=
  (engineRun rtest rsub rules lines.length ⟨lines, 0⟩).lines

/-! ## Concrete instances used to exercise the definitions -/

/-- A regex-test oracle that never matches; every property below that
uses it is independent of regex semantics. -/
def noRegexTest : String → String → Bool := fun _ _ => false

/-- A substitution oracle that leaves the line unchanged. -/
def noSub : String → String → String → String := fun _ _ l => l

/-- A small tree over the content `abcde`: two `identifier` leaves
spanning `(0,1)` and `(2,3)`. -/
def exTree : SNode :=
  .mk "program" 0 5 "abcde"
    [.mk "identifier" 0 1 "a" [], .mk "identifier" 2 3 "c" []]

/-- A tree over `abcde` with a single `identifier` leaf at `(1,3)`. -/
def exTreeSingle : SNode :=
  .mk "program" 0 5 "abcde" [.mk "identifier" 1 3 "bc" []]

/-- The CASE rule list of the worked example:
remove comment lines, then remove empty lines. -/
def exCommentRules : List CaseRule :=
  [⟨{ pre := some "//" }, { remove := true }⟩,
   ⟨{ empty := true }, { remove := true }⟩]

/-! ## Helper lemmas -/

/-- Peeling the head of the edit loop: because the target list is
reversed before folding, the head (lowest-start) match is the LAST one
applied. -/
theorem deleteApply_cons (c : List Char) (t : Span) (rest : List Span) :
    deleteApply c (t :: rest) =
      deleteContent (deleteApply c rest) t.startIndex t.endIndex := by
  simp [deleteApply, List.foldl_append]

/-- Well-formedness of a match list for the edit applier, as a
computable check: starts ascending from `lo`, each span ordered, spans
pairwise non-overlapping, all ends within `hi`. -/
def spansOK : Nat → Nat → List Span → Bool
  | lo, hi, [] => decide (lo ≤ hi)
  | lo, hi, t :: rest =>
    decide (lo ≤ t.startIndex) && decide (t.startIndex ≤ t.endIndex) &&
      spansOK t.endIndex hi rest

/-- Total length of the matched spans. -/
def sumLens (ts : List Span) : Nat :=
  (ts.map (fun t => t.endIndex - t.startIndex)).sum

/-- The text that survives deleting every span of `ts` from position
`prev` onward: the gap before each span, then the tail after the last
one.  Spelling out this shape is what makes "the relative order of the
un-deleted segments is preserved" a theorem. -/
def keptText (c : List Char) : Nat → List Span → List Char
  | prev, [] => c.drop prev
  | prev, t :: rest =>
    (c.drop prev).take (t.startIndex - prev) ++ keptText c t.endIndex rest

theorem spansOK_le {hi : Nat} :
    ∀ {ts : List Span} {lo : Nat}, spansOK lo hi ts = true → lo ≤ hi := by
  intro ts
  induction ts with
  | nil => intro lo h; simpa [spansOK] using h
  | cons t rest ih =>
    intro lo h
    simp only [spansOK, Bool.and_eq_true, decide_eq_true_eq] at h
    exact le_trans h.1.1 (le_trans h.1.2 (ih h.2))

/-- Tail-to-head application of pairwise non-overlapping, ascending
spans deletes exactly the spans: the region before `lo` is untouched
and the rest is the concatenation of the kept gaps, in order. -/
theorem deleteApply_eq_keptText (c : List Char) :
    ∀ (ts : List Span) (lo : Nat), spansOK lo c.length ts = true →
      deleteApply c ts = c.take lo ++ keptText c lo ts := by
  intro ts
  induction ts with
  | nil =>
    intro lo _
    simp [deleteApply, keptText, List.take_append_drop]
  | cons t rest ih =>
    intro lo h
    simp only [spansOK, Bool.and_eq_true, decide_eq_true_eq] at h
    obtain ⟨⟨hlo, hst⟩, hrest⟩ := h
    have hte : t.endIndex ≤ c.length := spansOK_le hrest
    have hlen : (c.take t.endIndex).length = t.endIndex := by
      simp [List.length_take, Nat.min_eq_left hte]
    rw [deleteApply_cons, ih t.endIndex hrest]
    have h1 : (c.take t.endIndex ++ keptText c t.endIndex rest).take t.startIndex
        = c.take t.startIndex := by
      rw [List.take_append_of_le_length (by omega), List.take_take,
        Nat.min_eq_left hst]
    have h2 := List.drop_left (c.take t.endIndex) (keptText c t.endIndex rest)
    rw [hlen] at h2
    have h3 : c.take t.startIndex
        = c.take lo ++ (c.drop lo).take (t.startIndex - lo) := by
      rw [← List.take_add, Nat.add_sub_cancel' hlo]
    calc deleteContent (c.take t.endIndex ++ keptText c t.endIndex rest)
          t.startIndex t.endIndex
        = c.take t.startIndex ++ keptText c t.endIndex rest := by
          unfold deleteContent; rw [h1, h2]
      _ = c.take lo ++ keptText c lo (t :: rest) := by
          rw [h3, List.append_assoc]; rfl

/-- Length accounting for the kept text. -/
theorem keptText_length (c : List Char) :
    ∀ (ts : List Span) (lo : Nat), spansOK lo c.length ts = true →
      (keptText c lo ts).length + sumLens ts + lo = c.length := by
  intro ts
  induction ts with
  | nil =>
    intro lo h
    simp only [spansOK, decide_eq_true_eq] at h
    simp only [keptText, sumLens, List.map_nil, List.sum_nil, List.length_drop]
    omega
  | cons t rest ih =>
    intro lo h
    simp only [spansOK, Bool.and_eq_true, decide_eq_true_eq] at h
    obtain ⟨⟨hlo, hst⟩, hrest⟩ := h
    have hte : t.endIndex ≤ c.length := spansOK_le hrest
    have hs : t.startIndex ≤ c.length := le_trans hst hte
    have hrec := ih t.endIndex hrest
    have hcons : keptText c lo (t :: rest)
        = (c.drop lo).take (t.startIndex - lo) ++ keptText c t.endIndex rest :=
      rfl
    have hsum : sumLens (t :: rest)
        = (t.endIndex - t.startIndex) + sumLens rest := by
      simp [sumLens]
    rw [hcons, hsum, List.length_append, List.length_take, List.length_drop]
    omega

/-! ## Claim theorems -/

/-- C9: for every content and tree, SELECT executed with no target
specifier returns the full input content unchanged, whatever the
condition slot holds. -/
theorem select_no_target_identity (rtest : String → String → Bool)
    (content : List Char) (root : SNode) (cond? : Option Cond) :
    selectExecute rtest content root none cond? = content := rfl

/-- C6: INSERT at `start` prepends and INSERT at `end` appends,
ignoring any match set; composing the two yields `x ++ c ++ y`, and
inserting the empty string at `start` is the identity. -/
theorem insert_start_end_compose (c x y : List Char) :
    insertExecute c "start" x = some (x ++ c) ∧
    insertExecute c "end" y = some (c ++ y) ∧
    (insertExecute c "start" x).bind (fun m => insertExecute m "end" y)
      = some ((x ++ c) ++ y) ∧
    insertExecute c "start" [] = some c := by
  refine ⟨rfl, ?_, ?_, by simp [insertExecute]⟩ <;> simp [insertExecute]

/-- C5 (divergence witness): the source's `before`/`after` INSERT
positions are an unimplemented TODO branch that returns the content
unchanged, instead of inserting the text at the anchor match as the
specification requires. -/
theorem insert_before_after_returns_content_unchanged :
    insertExecute ("abc".toList) "before" ("X".toList) = some ("abc".toList) ∧
    insertExecute ("abc".toList) "after" ("X".toList) = some ("abc".toList) := by
  decide

/-- C1 (divergence witness): on the overlapping match set
`[(2,8), (5,10)]` over the ten-character content `0123456789`, the
edit appliers produce (corrupted) output content — `01XY` for UPDATE
with replacement `XY` and `01` for DELETE — instead of rejecting the
command with an `OverlappingTargets` error; no overlap check exists on
the apply path. -/
theorem overlapping_spans_apply_both :
    updateApply ("0123456789".toList) [⟨2, 8⟩, ⟨5, 10⟩] ("XY".toList)
      = "01XY".toList ∧
    deleteApply ("0123456789".toList) [⟨2, 8⟩, ⟨5, 10⟩] = "01".toList := by
  decide

/-- C2 (divergence witness): condition filtering with a field other
than `type` and `text` hits the `default: return true` branch and
passes every match through unchanged, instead of failing with an
`UnsupportedConditionField` validation error. -/
theorem unknown_condition_field_passes_through (root : SNode)
    (f op v : String) (ts : List Span)
    (hf1 : f ≠ "type") (hf2 : f ≠ "text") :
    filterTargetsByCondition root ⟨f, op, v⟩ ts = ts := by
  have hkeep : ∀ t, condKeep root ⟨f, op, v⟩ t = true := by
    intro t
    unfold condKeep
    simp [hf1, hf2]
  exact List.filter_eq_self.mpr fun t _ => hkeep t

/-- Witness for C2's theorem at a concrete unknown field. -/
theorem unknown_condition_field_passes_through_w :
    filterTargetsByCondition exTree ⟨"foo", "=", "x"⟩ [⟨0, 1⟩] = [⟨0, 1⟩] :=
  unknown_condition_field_passes_through exTree "foo" "=" "x" [⟨0, 1⟩]
    (by decide) (by decide)

/-- C10: a match whose exact span equals no node of the tree is
silently dropped by condition filtering on field `type` or `text`
(the `findNodeAtPosition` lookup returns `null` and the filter
callback returns `false`); the filter is a total function on the
match set and raises no error for such a match. -/
theorem unlocatable_match_silently_excluded (root : SNode)
    (f op v : String) (ts : List Span) (t : Span)
    (hf : f = "type" ∨ f = "text")
    (hn : findNodeAtPosition root t.startIndex t.endIndex = none) :
    t ∉ filterTargetsByCondition root ⟨f, op, v⟩ ts := by
  intro hmem
  have hkeep := (List.mem_filter.mp hmem).2
  unfold condKeep at hkeep
  rcases hf with hf | hf <;> simp [hf, hn] at hkeep

/-- Witness for C10's theorem: span `(5,7)` matches no node of
`exTree`, so it is dropped by a `type` condition filter. -/
theorem unlocatable_match_silently_excluded_w :
    ⟨5, 7⟩ ∉ filterTargetsByCondition exTree ⟨"type", "=", "identifier"⟩
      [⟨5, 7⟩] :=
  unlocatable_match_silently_excluded exTree "type" "=" "identifier"
    [⟨5, 7⟩] ⟨5, 7⟩ (Or.inl rfl) (by rfl)

/-- C3: when target resolution yields exactly one match `(s,e)` with
`s ≤ e ≤ len(c)`, UPDATE returns `c[:s] ++ r ++ c[e:]`, every character
before the span is identical to the corresponding character of `c`,
and every character after the span reappears shifted by the length
difference of the replacement. -/
theorem update_single_match_splice (rtest : String → String → Bool)
    (cs : List Char) (root : SNode) (tgt : TargetSpec) (cond? : Option Cond)
    (s e : Nat) (r : List Char)
    (hres : findTargets rtest root tgt cond? = [⟨s, e⟩])
    (hse : s ≤ e) (hec : e ≤ cs.length) :
    updateExecute rtest cs root (some tgt) cond? (some r)
      = some (cs.take s ++ r ++ cs.drop e) ∧
    (∀ i, i < s → (cs.take s ++ r ++ cs.drop e)[i]? = cs[i]?) ∧
    (∀ j, e ≤ j → j < cs.length →
      (cs.take s ++ r ++ cs.drop e)[s + r.length + (j - e)]? = cs[j]?) := by
  have hsl : s ≤ cs.length := le_trans hse hec
  have hlen : (cs.take s).length = s := by
    simp [List.length_take, Nat.min_eq_left hsl]
  refine ⟨?_, ?_, ?_⟩
  · simp [updateExecute, hres, updateApply, replaceContent]
  · intro i hi
    rw [List.append_assoc, List.getElem?_append_left (by omega),
      List.getElem?_take_of_lt (by omega)]
  · intro j hj hjl
    rw [List.append_assoc, List.getElem?_append_right (by omega), hlen,
      List.getElem?_append_right (by omega), List.getElem?_drop]
    congr 1
    omega

/-- Witness for C3's theorem: `exTreeSingle` resolves the `identifier`
target to the single match `(1,3)` over the content `abcde`. -/
theorem update_single_match_splice_w :
    updateExecute noRegexTest ("abcde".toList) exTreeSingle
        (some (TargetSpec.typeName "identifier")) none (some ("Z".toList))
      = some (("abcde".toList).take 1 ++ "Z".toList ++ ("abcde".toList).drop 3) ∧
    (∀ i, i < 1 →
      (("abcde".toList).take 1 ++ "Z".toList ++ ("abcde".toList).drop 3)[i]?
        = ("abcde".toList)[i]?) ∧
    (∀ j, 3 ≤ j → j < ("abcde".toList).length →
      (("abcde".toList).take 1 ++ "Z".toList
        ++ ("abcde".toList).drop 3)[1 + ("Z".toList).length + (j - 3)]?
        = ("abcde".toList)[j]?) :=
  update_single_match_splice noRegexTest ("abcde".toList) exTreeSingle
    (TargetSpec.typeName "identifier") none 1 3 ("Z".toList)
    (by rfl) (by decide) (by decide)

/-- C4: for a match set that is ascending and pairwise non-overlapping
(`spansOK`), the DELETE applier — which processes the reversed, hence
descending-start, list so that earlier edits never shift pending
offsets — removes exactly the matched spans: the result is the ordered
concatenation of the un-deleted segments (`keptText`), and its length
is the content length minus the sum of the match lengths. -/
theorem delete_nonoverlapping_matches (rtest : String → String → Bool)
    (c : List Char) (root : SNode) (tgt : TargetSpec) (cond? : Option Cond)
    (ts : List Span)
    (hres : findTargets rtest root tgt cond? = ts)
    (hok : spansOK 0 c.length ts = true) :
    deleteExecute rtest c root (some tgt) cond? = keptText c 0 ts ∧
    (deleteExecute rtest c root (some tgt) cond?).length
      = c.length - sumLens ts := by
  have h1 : deleteExecute rtest c root (some tgt) cond? = keptText c 0 ts := by
    have h := deleteApply_eq_keptText c ts 0 hok
    simp only [deleteExecute, hres]
    simpa using h
  refine ⟨h1, ?_⟩
  rw [h1]
  have h2 := keptText_length c ts 0 hok
  omega

/-- Witness for C4's theorem: `exTree` resolves the `identifier` target
to the ascending non-overlapping matches `(0,1)` and `(2,3)` over
`abcde`; deleting them leaves `bde` of length `5 - 2`. -/
theorem delete_nonoverlapping_matches_w :
    deleteExecute noRegexTest ("abcde".toList) exTree
        (some (TargetSpec.typeName "identifier")) none
      = keptText ("abcde".toList) 0 [⟨0, 1⟩, ⟨2, 3⟩] ∧
    (deleteExecute noRegexTest ("abcde".toList) exTree
        (some (TargetSpec.typeName "identifier")) none).length
      = ("abcde".toList).length - sumLens [⟨0, 1⟩, ⟨2, 3⟩] :=
  delete_nonoverlapping_matches noRegexTest ("abcde".toList) exTree
    (TargetSpec.typeName "identifier") none [⟨0, 1⟩, ⟨2, 3⟩]
    (by rfl) (by decide)

/-- Shape of one successful loop iteration of the line rule engine:
the loop guard held, and the step either advanced the index by one over
an array of unchanged length, or removed the current line — shrinking
the array by one while keeping the index in place. -/
theorem engineStep_some_shape (rtest : String → String → Bool)
    (rsub : String → String → String → String) (rules : List CaseRule)
    (st st' : LoopSt) (h : engineStep rtest rsub rules st = some st') :
    st.i < st.lines.length ∧
    ((st'.i = st.i + 1 ∧ st'.lines.length = st.lines.length) ∨
     (st'.i = st.i ∧ st'.lines.length + 1 = st.lines.length)) := by
  unfold engineStep at h
  split at h
  · exact absurd h (by simp)
  · rename_i line hget
    have hidx : st.i < st.lines.length := by
      rcases List.get?_eq_some.mp hget with ⟨hlt, _⟩
      exact hlt
    refine ⟨hidx, ?_⟩
    split at h
    · split at h
      · injection h with h'
        subst h'
        right
        refine ⟨rfl, ?_⟩
        rw [List.length_eraseIdx, if_pos hidx]
        omega
      · injection h with h'
        subst h'
        exact Or.inl ⟨rfl, by simp [List.length_set]⟩
    · injection h with h'
      subst h'
      exact Or.inl ⟨rfl, rfl⟩

/-- `lines.length - i` is a fuel bound for the loop: running that many
iterations always reaches a state where the loop guard fails. -/
theorem engineRun_reaches_end (rtest : String → String → Bool)
    (rsub : String → String → String → String) (rules : List CaseRule) :
    ∀ (n : Nat) (st : LoopSt), st.lines.length - st.i ≤ n →
      engineStep rtest rsub rules (engineRun rtest rsub rules n st) = none := by
  intro n
  induction n with
  | zero =>
    intro st h
    simp only [engineRun]
    unfold engineStep
    rw [List.get?_eq_none.mpr (by omega)]
  | succ n ih =>
    intro st h
    cases hstep : engineStep rtest rsub rules st with
    | none =>
      simp only [engineRun, hstep]
    | some st' =>
      simp only [engineRun, hstep]
      apply ih
      rcases engineStep_some_shape rtest rsub rules st st' hstep with
        ⟨hidx, h1 | h2⟩ <;> omega

/-- C8: the line rule engine terminates: every loop iteration either
advances the index by one over an array of unchanged length or, right
after a Remove, strictly shrinks the line array while keeping the
index (so no line is revisited once passed except the same index after
a Remove), and therefore running the loop with `lines.length` fuel from
index `0` always reaches the state where the loop guard fails. -/
theorem case_engine_loop_terminates (rtest : String → String → Bool)
    (rsub : String → String → String → String) :
    (∀ (rules : List CaseRule) (st st' : LoopSt),
      engineStep rtest rsub rules st = some st' →
      (st'.i = st.i + 1 ∧ st'.lines.length = st.lines.length) ∨
      (st'.i = st.i ∧ st'.lines.length + 1 = st.lines.length)) ∧
    (∀ (rules : List CaseRule) (lines : List String),
      engineStep rtest rsub rules
        (engineRun rtest rsub rules lines.length ⟨lines, 0⟩) = none) :=
  ⟨fun rules st st' h => (engineStep_some_shape rtest rsub rules st st' h).2,
   fun rules lines =>
     engineRun_reaches_end rtest rsub rules lines.length ⟨lines, 0⟩ (by simp)⟩

/-- Witness for C8's theorem: one concrete iteration with no matching
rule advances the index from 0 to 1 over a one-line array. -/
theorem case_engine_loop_terminates_w :
    ((LoopSt.mk ["a"] 1).i = (LoopSt.mk ["a"] 0).i + 1 ∧
     (LoopSt.mk ["a"] 1).lines.length = (LoopSt.mk ["a"] 0).lines.length) ∨
    ((LoopSt.mk ["a"] 1).i = (LoopSt.mk ["a"] 0).i ∧
     (LoopSt.mk ["a"] 1).lines.length + 1 = (LoopSt.mk ["a"] 0).lines.length) :=
  (case_engine_loop_terminates noRegexTest noSub).1 [] ⟨["a"], 0⟩ ⟨["a"], 1⟩
    (by rfl)

/-- Unfolding of `List.find?` on a cons cell, stated with the
predicate explicit so it rewrites predictably. -/
theorem find?_cons_eq {α : Type} (p : α → Bool) (a : α) (l : List α) :
    List.find? p (a :: l) = if p a then some a else List.find? p l := by
  by_cases h : p a = true
  · rw [List.find?_cons_of_pos _ h, if_pos h]
  · rw [List.find?_cons_of_neg _ h, if_neg h]

/-- C7: the CASE engine with rules "remove `//`-led lines, then remove
empty lines" maps `["a", "// comment", "", "b"]` to `["a", "b"]`
(exercising the re-examination of the same index after a Remove: the
empty line slides into index 1 and is removed there); moreover rule
dispatch is first-match-wins — rules after the first whose condition
matches the line never influence the selected rule. -/
theorem case_engine_comment_example :
    executeUpdateCommand noRegexTest noSub exCommentRules
        ["a", "// comment", "", "b"] = ["a", "b"] ∧
    (∀ (rtest : String → String → Bool) (early late : List CaseRule)
        (r : CaseRule) (line : String),
      matchesCondition rtest line r.whenC = true →
      (early ++ r :: late).find? (fun k => matchesCondition rtest line k.whenC)
        = (early ++ [r]).find?
            (fun k => matchesCondition rtest line k.whenC)) := by
  constructor
  · decide
  · intro rtest early late r line hm
    induction early with
    | nil =>
      simp [find?_cons_eq, hm]
    | cons a rest ih =>
      simp only [List.cons_append, find?_cons_eq]
      rw [ih]

/-- Witness for C7's theorem: on the line `"// x"`, the matching
comment rule placed first makes the rules after it irrelevant. -/
theorem case_engine_comment_example_w :
    (([] : List CaseRule)
        ++ (⟨{ pre := some "//" }, { remove := true }⟩ : CaseRule)
        :: [⟨{ empty := true }, { remove := true }⟩]).find?
      (fun k => matchesCondition noRegexTest "// x" k.whenC)
      = (([] : List CaseRule)
          ++ [(⟨{ pre := some "//" }, { remove := true }⟩ : CaseRule)]).find?
        (fun k => matchesCondition noRegexTest "// x" k.whenC) :=
  case_engine_comment_example.2 noRegexTest []
    [⟨{ empty := true }, { remove := true }⟩]
    ⟨{ pre := some "//" }, { remove := true }⟩ "// x" (by decide)

end CedarMCP
